import Mathlib

/-!
Verification development for the outbound-bot repository.

This file gives a shallow embedding of the change-reconciliation and
idempotent-ingestion pipeline of the repository:

* `src/app/webhook.py` — `collect_rows_from_folder`, `process_folder`,
  `handle_drive_changes`;
* `src/app/sheets_service.py` — `clear_destination_sheet`,
  `append_rows_to_sheet` / `overwrite_sheet` (as destination effects),
  `send_dashboard_images` (publication);
* `src/app/utils.py` — `save_state` (as a persistence effect, plus its
  Python call-arity), `DedupeCache.seen` / `DedupeCache._prune`;
* `src/app/config.py` — `_env_bool` and the `force_overwrite` default.

Instants (parsed RFC3339 timestamps, compared with `<` and stored back
verbatim) are modelled as integers; `DedupeCache` timestamps, which are
divided by two via Python true division, are modelled as rationals.
Network downloads and archive extraction (`download_zip` followed by
`process_zip`) are modelled as one extraction oracle: a function from a
listed file to either an extraction error or the row list `process_zip`
returns for that file's bytes.  Side effects on the destination sheet,
the status cell, the state store and the chat webhook are recorded in an
effect trace.
-/

namespace OutboundBot

/-- A candidate file as returned by `list_zip_files` (`files(id,name,modifiedTime)`),
with `modifiedTime` already parsed by `parse_rfc3339` into an instant. -/
structure ZipMeta where
  id : String
  name : String
  modifiedTime : Int
deriving DecidableEq, Repr

/-- The persistent state dictionary (the fields read or written by the
reconciliation pipeline; see `load_state` in `src/app/utils.py` for the
defaults).  `last_processed_zip_time` holds the parsed instant of the
stored RFC3339 string, `none` standing for a missing or null entry. -/
structure BotState where
  processed_zip_ids : List String
  last_processed_zip_time : Option Int
  page_token : Option String
  last_import_row_count : Nat
  last_run : Option Int
deriving DecidableEq, Repr

/-- The state produced by `load_state` when the state file is absent or
unreadable (`src/app/utils.py` lines 16-24). -/
def initial_state : BotState :=
  { processed_zip_ids := []
    last_processed_zip_time := none
    page_token := none
    last_import_row_count := 0
    last_run := none }

/-- The subset of `WorkflowConfig` (`src/app/config.py`) that the
reconciliation pipeline reads. -/
structure WorkflowConfig where
  drive_parent_folder_id : String
  force_overwrite : Bool
  skip_seatalk_images : Bool
  seatalk_webhook_url : String
  state_path : String
  state_key : String
deriving DecidableEq, Repr

/-- Translation of `_env_bool` (`src/app/config.py` lines 42-46): the
argument is the looked-up environment value (`none` when unset). -/
def env_bool (value : Option String) (dflt : Bool) : Bool :=
  match value with
  | none => dflt
  | some v => decide (v.trim.toLower ∈ ["1", "true", "yes", "y", "on"])

/-- The `force_overwrite` value `_build_workflow_config` produces when neither
`{prefix}FORCE_OVERWRITE` nor `FORCE_OVERWRITE` is set in the environment
(`src/app/config.py` line 116): `_env_bool(prefixed, _env_bool("FORCE_OVERWRITE", True))`. -/
def force_overwrite_default : Bool :=
  env_bool none (env_bool none true)

/-- The fixed destination column header (`COLUMNS` in `src/app/sheets_service.py`). -/
def COLUMNS : List String :=
  ["TO Number", "SPX Tracking Number", "Receiver Name", "TO Order Quantity",
   "Operator", "Create Time", "Complete Time", "Remark", "Receive Status",
   "Staging Area ID"]

/-- One observable side effect of a reconciliation or notification pass. -/
inductive Effect where
  /-- `update_backlogs_status`: a write to the status cell. -/
  | statusUpdate (value : String)
  /-- The `values().clear` call on the managed range (in `overwrite_sheet`
  and `clear_destination_sheet`). -/
  | sheetClear
  /-- The `values().update` call on the managed range (in `overwrite_sheet`),
  carrying the full written row set. -/
  | sheetWrite (values : List (List String))
  /-- A `save_state` call persisting the given state. -/
  | saveState (st : BotState)
  /-- The `process_folder` invocation inside `handle_drive_changes`. -/
  | reconcile
  /-- The `send_dashboard_images` publication step. -/
  | publish
deriving DecidableEq, Repr

/-- The extraction oracle: for a listed file, the value of
`process_zip(download_zip(drive, z.id))` — either the propagated
extraction error or the returned row list (header first when nonempty). -/
def Extractor : Type := ZipMeta → Except String (List (List String))

/-- Result dictionary of `collect_rows_from_folder`, plus the trace of
`download_zip` calls made during the pass. -/
structure CollectResult where
  rows : List (List String)
  zip_ids : List String
  max_dt : Option Int
  downloads : List String
deriving DecidableEq, Repr

/-- The "new file" test of `collect_rows_from_folder`
(`src/app/webhook.py` lines 33-38): a file is new if the configured
force-overwrite flag is set, or `ignore_last_dt` is set, or the threshold
is null or strictly exceeded, or the file's id is not among the processed
ids. -/
def is_new (wf : WorkflowConfig) (st : BotState) (ignore_last_dt : Bool)
    (last_dt : Option Int) (z : ZipMeta) : Bool :=
  wf.force_overwrite || ignore_last_dt ||
    (match last_dt with
     | none => true
     | some d => decide (d < z.modifiedTime)) ||
    !(decide (z.id ∈ st.processed_zip_ids))

/-- The `max_dt` update of `collect_rows_from_folder` lines 47-48:
`if max_dt is None or z_dt > max_dt: max_dt = z_dt`. -/
def optMax (a : Option Int) (t : Int) : Option Int :=
  match a with
  | none => some t
  | some m => if m < t then some t else some m

/-- The loop body of `collect_rows_from_folder` (lines 31-48), carrying the
accumulators `new_rows`, `max_dt`, `new_zip_ids` and the download trace. -/
def collect_go (extract : Extractor) (wf : WorkflowConfig) (st : BotState)
    (ignore_last_dt : Bool) (last_dt : Option Int) :
    List ZipMeta → List (List String) → Option Int → List String → List String →
    Except String CollectResult
  | [], rows, maxd, ids, dls => .ok ⟨rows, ids, maxd, dls⟩
  | z :: zs, rows, maxd, ids, dls =>
    if is_new wf st ignore_last_dt last_dt z then
      match extract z with
      | .error e => .error e
      | .ok zrows =>
        if zrows.isEmpty then
          collect_go extract wf st ignore_last_dt last_dt zs rows maxd ids (dls ++ [z.id])
        else
          collect_go extract wf st ignore_last_dt last_dt zs
            (rows ++ zrows.drop 1) (optMax maxd z.modifiedTime)
            (ids ++ [z.id]) (dls ++ [z.id])
    else
      collect_go extract wf st ignore_last_dt last_dt zs rows maxd ids dls

/-- The threshold computed at the top of `collect_rows_from_folder`
(line 25): `None if ignore_last_dt or not last_ts else parse_rfc3339(last_ts)`. -/
def last_dt_of (st : BotState) (ignore_last_dt : Bool) : Option Int :=
  if ignore_last_dt then none else st.last_processed_zip_time

/-- Translation of `collect_rows_from_folder` (`src/app/webhook.py`
lines 20-50), with the folder listing `zips` passed in place of the
`list_zip_files` network call. -/
def collect_rows_from_folder (extract : Extractor) (wf : WorkflowConfig)
    (zips : List ZipMeta) (st : BotState) (ignore_last_dt : Bool) :
    Except String CollectResult :=
  let last_dt := last_dt_of st ignore_last_dt
  collect_go extract wf st ignore_last_dt last_dt zips [] last_dt [] []

/-- Membership-level translation of
`set(state.get("processed_zip_ids", [])).update(new_zip_ids)` followed by
`list(...)` (`src/app/webhook.py` lines 71-73): the stored list holds
exactly the union of the two id collections. -/
def union_ids (old add : List String) : List String :=
  (old ++ add).dedup

/-- Outcome of one `process_folder` call: the (possibly mutated) state
dictionary, the ordered effect trace, and the propagated exception if
the pass aborted. -/
structure ProcessOutcome where
  state : BotState
  effects : List Effect
  error : Option String
deriving DecidableEq, Repr

/-- Translation of `process_folder` (`src/app/webhook.py` lines 53-85).
`now_display` is the formatted status timestamp and `now_utc` the instant
written into `last_run`.  On an extraction error the exception propagates
with the state untouched; effects performed before the abort (the initial
status write) are kept in the trace. -/
def process_folder (extract : Extractor) (wf : WorkflowConfig)
    (zips : List ZipMeta) (st : BotState) (ignore_last_dt : Bool)
    (now_display : String) (now_utc : Int) : ProcessOutcome :=
  let e0 : List Effect := [.statusUpdate "Fetching data..."]
  match collect_rows_from_folder extract wf zips st ignore_last_dt with
  | .error e => ⟨st, e0, some e⟩
  | .ok res =>
    if res.rows.isEmpty then
      ⟨st, e0 ++ [.statusUpdate now_display], none⟩
    else
      let st1 : BotState :=
        { st with
          processed_zip_ids := union_ids st.processed_zip_ids res.zip_ids
          last_import_row_count := res.rows.length
          last_processed_zip_time :=
            match res.max_dt with
            | none => st.last_processed_zip_time
            | some m => some m
          last_run := some now_utc }
      ⟨st1,
        e0 ++ [.sheetClear, .sheetWrite (COLUMNS :: res.rows), .saveState st1,
          .statusUpdate now_display] ++
          (if wf.skip_seatalk_images then [] else [.publish]),
        none⟩

/-! ### Change-feed notification handling (`handle_drive_changes`) -/

/-- The `file` metadata of one change record, when present
(the fields requested by `handle_drive_changes`:
`file(name,mimeType,parents,trashed,createdTime,modifiedTime)`; the
fields the classifier reads are modelled). -/
structure ChangeFileMeta where
  name : String
  parents : List String
  trashed : Bool
deriving DecidableEq, Repr

/-- One element of `res.get("changes", [])`. -/
structure ChangeRecord where
  fileId : Option String
  file : Option ChangeFileMeta
deriving DecidableEq, Repr

/-- One page of the change feed. -/
structure ChangePage where
  changes : List ChangeRecord
  nextPageToken : Option String
  newStartPageToken : Option String
deriving DecidableEq, Repr

/-- Python `str.lower()`, character by character. -/
def py_lower (s : String) : String :=
  ⟨s.data.map Char.toLower⟩

/-- Python `str.endswith(sfx)`: the final characters of `s` equal `sfx`. -/
def py_endswith (s sfx : String) : Bool :=
  decide (sfx.data.length ≤ s.data.length) &&
    decide (s.data.drop (s.data.length - sfx.data.length) = sfx.data)

/-- The id used by the trashed-file branch
(`src/app/webhook.py` line 141): `change.get("fileId") or file.get("id")`;
the requested field set contains no `file.id`, so the fallback is always
absent and only `fileId` can supply the id. -/
def change_file_id (r : ChangeRecord) : Option String :=
  r.fileId

/-- Per-record classification of the scan loop of `handle_drive_changes`
(`src/app/webhook.py` lines 130-151): the pair is the contribution of this
record to the `changed` and `deleted_zip` flags (each loop iteration can
only raise one of the flags and never lowers either). -/
def record_flags (wf : WorkflowConfig) (processed : List String)
    (r : ChangeRecord) : Bool × Bool :=
  match r.file with
  | none =>
    match r.fileId with
    | some fid => (false, decide (fid ∈ processed))
    | none => (false, false)
  | some f =>
    if f.trashed then
      (false,
        (py_endswith (py_lower f.name) ".zip" &&
          (f.parents.isEmpty || decide (wf.drive_parent_folder_id ∈ f.parents)))
        || (match change_file_id r with
            | some fid => decide (fid ∈ processed)
            | none => false))
    else
      (decide (wf.drive_parent_folder_id ∈ f.parents), false)

/-- Folding the per-record flags over the records of one page. -/
def scan_changes (wf : WorkflowConfig) (processed : List String)
    (rs : List ChangeRecord) (acc : Bool × Bool) : Bool × Bool :=
  rs.foldl (fun a r =>
    let h := record_flags wf processed r
    (a.1 || h.1, a.2 || h.2)) acc

/-- The paging loop of `handle_drive_changes` (lines 118-154): the pages
served by `drive.changes().list` are folded in order, accumulating the
`changed` and `deleted_zip` flags and the last reported
`newStartPageToken` (`res.get("newStartPageToken", new_start_token)`). -/
def scan_pages (wf : WorkflowConfig) (processed : List String) :
    List ChangePage → Bool × Bool × Option String → Bool × Bool × Option String
  | [], acc => acc
  | pg :: rest, acc =>
    let cd := scan_changes wf processed pg.changes (acc.1, acc.2.1)
    scan_pages wf processed rest
      (cd.1, cd.2,
        match pg.newStartPageToken with
        | some t => some t
        | none => acc.2.2)

/-- Translation of `clear_destination_sheet`
(`src/app/sheets_service.py` lines 113-127) with a non-null state: the
managed range is cleared and the state fields reset. -/
def clear_destination_sheet (st : BotState) (now_utc : Int) :
    BotState × List Effect :=
  ({ st with
      processed_zip_ids := []
      last_processed_zip_time := none
      last_import_row_count := 0
      last_run := some now_utc },
   [.sheetClear])

/-- Outcome of one `handle_drive_changes` call. -/
structure HandleOutcome where
  changed : Bool
  state : BotState
  effects : List Effect
  error : Option String
deriving DecidableEq, Repr

/-- Translation of `handle_drive_changes` (`src/app/webhook.py`
lines 107-169).  `freshToken` is the value `get_start_page_token` would
return, `pages` the change-feed pages the paging loop consumes, and the
remaining arguments feed the nested `process_folder` call.  Persistence
is recorded as `Effect.saveState`; the `Effect.reconcile` marker is
emitted exactly when `process_folder` is invoked. -/
def handle_drive_changes (extract : Extractor) (wf : WorkflowConfig)
    (zips : List ZipMeta) (freshToken : String) (pages : List ChangePage)
    (st : BotState) (now_display : String) (now_utc : Int) : HandleOutcome :=
  match st.page_token with
  | none =>
    let st1 := { st with page_token := some freshToken }
    ⟨false, st1, [.saveState st1], none⟩
  | some _ =>
    let scanned := scan_pages wf st.processed_zip_ids pages (false, false, none)
    let changed := scanned.1
    let deleted_zip := scanned.2.1
    let p1 : BotState × List Effect :=
      match scanned.2.2 with
      | some t =>
        let s := { st with page_token := some t }
        (s, [.saveState s])
      | none => (st, [])
    let st1 := p1.1
    let e1 := p1.2
    if deleted_zip then
      let p2 := clear_destination_sheet st1 now_utc
      ⟨true, p2.1, e1 ++ p2.2 ++ [.saveState p2.1], none⟩
    else if changed then
      let po := process_folder extract wf zips st1 false now_display now_utc
      ⟨true, po.state, e1 ++ [.reconcile] ++ po.effects, po.error⟩
    else
      ⟨false, st1, e1, none⟩

/-! ### Python call arity of the `save_state` persistence calls

`src/app/utils.py` line 27 declares `def save_state(state_path, state)`,
while every persistence call in `src/app/webhook.py` and
`src/app/main.py` passes three positional arguments
(`save_state(workflow.state_path, state, workflow.state_key)`, for
example at `src/app/webhook.py` line 111).  Python raises `TypeError`
when the positional argument count differs from the parameter count. -/

/-- Number of parameters of `save_state` as defined in
`src/app/utils.py` lines 27-29. -/
def save_state_param_count : Nat := 2

/-- Number of positional arguments passed at the `save_state` call in the
first-run bootstrap branch of `handle_drive_changes`
(`src/app/webhook.py` line 111). -/
def webhook_save_state_arg_count : Nat := 3

/-- Result of the bootstrap branch of `handle_drive_changes` under Python
call semantics. -/
inductive BootstrapResult where
  /-- The branch returned this value after persisting the given state. -/
  | returned (changed : Bool) (persisted : BotState)
  /-- The branch raised `TypeError` at the `save_state` call. -/
  | raised
  /-- The state already holds a cursor, so the branch was not taken. -/
  | notTaken
deriving DecidableEq, Repr

/-- Runtime behaviour of the first-run bootstrap branch of
`handle_drive_changes` (`src/app/webhook.py` lines 108-112), including
the Python arity check at the `save_state(workflow.state_path, state,
workflow.state_key)` call against the two-parameter `save_state` of
`src/app/utils.py`. -/
def handle_drive_changes_bootstrap (freshToken : String) (st : BotState) :
    BootstrapResult :=
  match st.page_token with
  | none =>
    let st1 := { st with page_token := some freshToken }
    if webhook_save_state_arg_count = save_state_param_count then
      .returned false st1
    else
      .raised
  | some _ => .notTaken

/-! ### DedupeCache (`src/app/utils.py` lines 72-99)

The entry table is an insertion-ordered association list (the Python
dict); timestamps are rationals since `_prune` divides the TTL by two
with true division. -/

/-- The `DedupeCache` dataclass: configuration plus the entry table. -/
structure DedupeCache where
  ttl_seconds : ℚ
  max_size : Nat
  entries : List (String × ℚ)
deriving DecidableEq, Repr

/-- Dictionary lookup `self._entries.get(key)`. -/
def dget (es : List (String × ℚ)) (k : String) : Option ℚ :=
  match es with
  | [] => none
  | e :: rest => if e.1 = k then some e.2 else dget rest k

/-- Dictionary store `self._entries[key] = v`: updates the value in place
when the key is present, else appends the new binding. -/
def dset (es : List (String × ℚ)) (k : String) (v : ℚ) : List (String × ℚ) :=
  match es with
  | [] => [(k, v)]
  | e :: rest => if e.1 = k then (k, v) :: rest else e :: dset rest k v

/-- Translation of `DedupeCache._prune` (lines 91-99): entries with a
timestamp strictly below the cutoff (`now - ttl`, or `now - ttl/2` for the
aggressive pass) are evicted. -/
def prune (now : ℚ) (aggressive : Bool) (c : DedupeCache) : DedupeCache :=
  if c.entries.isEmpty then c
  else
    let cutoff := if aggressive then now - c.ttl_seconds / 2 else now - c.ttl_seconds
    { c with entries := c.entries.filter (fun e => !(decide (e.2 < cutoff))) }

/-- Translation of `DedupeCache.seen` (lines 80-89), with the call time
`now` passed explicitly in place of `time.time()`. -/
def seen (c : DedupeCache) (now : ℚ) (key : String) : Bool × DedupeCache :=
  let c1 := prune now false c
  let hit :=
    match dget c1.entries key with
    | some ts => decide (now - ts ≤ c1.ttl_seconds)
    | none => false
  if hit then (true, c1)
  else
    let c2 := { c1 with entries := dset c1.entries key now }
    let c3 := if c2.max_size < c2.entries.length then prune now true c2 else c2
    (false, c3)

/-- Whether a key counts as a live (within-TTL) entry of the cache at the
given instant — the condition under which `seen` reports a duplicate
before pruning is taken into account. -/
def live (c : DedupeCache) (now : ℚ) (k : String) : Bool :=
  match dget c.entries k with
  | some ts => decide (now - ts ≤ c.ttl_seconds)
  | none => false

/-- The trigger condition of the aggressive pruning pass inside one
`seen` call: the key was not a live duplicate and the insertion pushed
the table above `max_size`. -/
def seen_overflowed (c : DedupeCache) (now : ℚ) (key : String) : Bool :=
  let c1 := prune now false c
  let hit :=
    match dget c1.entries key with
    | some ts => decide (now - ts ≤ c1.ttl_seconds)
    | none => false
  !hit && decide (c1.max_size < (dset c1.entries key now).length)

/-! ### Publication (`send_dashboard_images`, lines 465-494)

The rendered artifacts are abstracted to numbered images.  The render
calls (`render_sheet_range_images`, `render_sheet_range_image` plus
`stack_images_vertically`/`_image_to_bytes_list`) run outside any
`try` block, so a raising render propagates; each `send_seatalk_image`
call and the final `send_seatalk_text` call are wrapped in `try`/`except`
and only logged. -/

/-- One log line of the publication step. -/
inductive PubLog where
  | imageSent (img : Nat)
  | imageFailed (img : Nat)
  | textSent
  | textFailed
deriving DecidableEq, Repr

/-- Sequentially running the render computations that assemble the
`images` list: the first raising render propagates its error. -/
def collect_renders : List (Except String Nat) → Except String (List Nat)
  | [] => .ok []
  | .error e :: _ => .error e
  | .ok img :: rest =>
    match collect_renders rest with
    | .error e => .error e
    | .ok imgs => .ok (img :: imgs)

/-- Translation of `send_dashboard_images`: nothing happens without a
configured chat webhook URL; otherwise the renders run (propagating the
first render error), then every image send and the final text send are
attempted with failures logged, never raised. -/
def send_dashboard_images (url_configured : Bool)
    (renders : List (Except String Nat)) (sendOk : Nat → Bool)
    (textOk : Bool) : Except String (List PubLog) :=
  if !url_configured then .ok []
  else
    match collect_renders renders with
    | .error e => .error e
    | .ok imgs =>
      .ok ((imgs.map fun i => if sendOk i then PubLog.imageSent i else PubLog.imageFailed i)
        ++ [if textOk then PubLog.textSent else PubLog.textFailed])

/-- `process_folder` together with its publication step: when the pass
committed and publication was not suppressed (the `Effect.publish` marker
is in the trace), `send_dashboard_images` runs; a propagating render
error makes the whole call raise after the state was already committed,
while send failures only add log lines. -/
def process_folder_full (extract : Extractor) (wf : WorkflowConfig)
    (zips : List ZipMeta) (st : BotState) (ignore_last_dt : Bool)
    (now_display : String) (now_utc : Int)
    (renders : List (Except String Nat)) (sendOk : Nat → Bool)
    (textOk : Bool) : ProcessOutcome × List PubLog :=
  let o := process_folder extract wf zips st ignore_last_dt now_display now_utc
  if o.error.isNone && decide (Effect.publish ∈ o.effects) then
    match send_dashboard_images (wf.seatalk_webhook_url ≠ "") renders sendOk textOk with
    | .error e => ({ o with error := some e }, [])
    | .ok logs => (o, logs)
  else (o, [])

/-! ### Derived notions used to state the claims -/

/-- Whether a file's extraction succeeds with a nonempty row list — the
condition under which `collect_rows_from_folder` records the file
(appends its rows, its id, and folds its modified time). -/
def contributes (extract : Extractor) (z : ZipMeta) : Bool :=
  match extract z with
  | .ok rows => !rows.isEmpty
  | .error _ => false

/-- The rows a file's extraction yields (empty for an error). -/
def extracted_rows (extract : Extractor) (z : ZipMeta) : List (List String) :=
  match extract z with
  | .ok rows => rows
  | .error _ => []

/-- The files of a listing classified "new" in a pass. -/
def new_files (wf : WorkflowConfig) (st : BotState) (ignore_last_dt : Bool)
    (zips : List ZipMeta) : List ZipMeta :=
  zips.filter (is_new wf st ignore_last_dt (last_dt_of st ignore_last_dt))

/-- The files of a listing that a pass actually records: classified "new"
and extracting to a nonempty row list. -/
def merged_files (extract : Extractor) (wf : WorkflowConfig) (st : BotState)
    (ignore_last_dt : Bool) (zips : List ZipMeta) : List ZipMeta :=
  zips.filter fun z =>
    is_new wf st ignore_last_dt (last_dt_of st ignore_last_dt) z && contributes extract z

/-- Modelled from the spec: "the maximum modified-time among the files
classified new in that pass" — the plain maximum over a list of files,
independent of any prior threshold. -/
def spec_max_modified (l : List ZipMeta) : Option Int :=
  l.foldl (fun a z => optMax a z.modifiedTime) none

/-! ### Supporting lemmas about the collection loop -/

theorem optMax_spec (a : Option Int) (t : Int) :
    ∃ M, optMax a t = some M ∧ t ≤ M ∧ ∀ m, a = some m → m ≤ M := by
  cases a with
  | none => exact ⟨t, rfl, le_refl t, by intro m h; cases h⟩
  | some m =>
    by_cases h : m < t
    · exact ⟨t, by simp [optMax, h], le_refl t, by intro m' hm'; cases hm'; omega⟩
    · exact ⟨m, by simp [optMax, h], by omega, by intro m' hm'; cases hm'; omega⟩

theorem foldl_optMax_some (l : List ZipMeta) :
    ∀ m : Int, ∃ M, l.foldl (fun a z => optMax a z.modifiedTime) (some m) = some M ∧ m ≤ M := by
  induction l with
  | nil => intro m; exact ⟨m, rfl, le_refl m⟩
  | cons z zs ih =>
    intro m
    obtain ⟨M0, hM0, htM0, hleM0⟩ := optMax_spec (some m) z.modifiedTime
    obtain ⟨M, hM, hmM⟩ := ih M0
    refine ⟨M, ?_, ?_⟩
    · simpa [List.foldl_cons, hM0] using hM
    · exact le_trans (hleM0 m rfl) hmM

theorem foldl_optMax_mem (l : List ZipMeta) :
    ∀ (a : Option Int) (z : ZipMeta), z ∈ l →
      ∃ M, l.foldl (fun a z => optMax a z.modifiedTime) a = some M ∧ z.modifiedTime ≤ M := by
  induction l with
  | nil => intro a z hz; cases hz
  | cons w ws ih =>
    intro a z hz
    rcases List.mem_cons.mp hz with h | h
    · subst h
      obtain ⟨M0, hM0, htM0, _⟩ := optMax_spec a z.modifiedTime
      obtain ⟨M, hM, hmM⟩ := foldl_optMax_some ws M0
      exact ⟨M, by simpa [List.foldl_cons, hM0] using hM, le_trans htM0 hmM⟩
    · obtain ⟨M, hM, hmM⟩ := ih (optMax a w.modifiedTime) z h
      exact ⟨M, by simpa [List.foldl_cons] using hM, hmM⟩

theorem collect_go_ok_spec (extract : Extractor) (wf : WorkflowConfig)
    (st : BotState) (ig : Bool) (ld : Option Int) :
    ∀ (zs : List ZipMeta) (rows : List (List String)) (maxd : Option Int)
      (ids dls : List String) (res : CollectResult),
      collect_go extract wf st ig ld zs rows maxd ids dls = .ok res →
      res.rows = rows ++ (zs.filter fun z => is_new wf st ig ld z && contributes extract z).flatMap
          (fun z => (extracted_rows extract z).drop 1) ∧
      res.max_dt = (zs.filter fun z => is_new wf st ig ld z && contributes extract z).foldl
          (fun a z => optMax a z.modifiedTime) maxd ∧
      res.zip_ids = ids ++ (zs.filter fun z => is_new wf st ig ld z && contributes extract z).map ZipMeta.id ∧
      res.downloads = dls ++ (zs.filter fun z => is_new wf st ig ld z).map ZipMeta.id := by
  intro zs
  induction zs with
  | nil =>
    intro rows maxd ids dls res h
    simp only [collect_go, Except.ok.injEq] at h
    subst h
    simp
  | cons z zs ih =>
    intro rows maxd ids dls res h
    by_cases hnew : is_new wf st ig ld z = true
    · rw [collect_go, if_pos hnew] at h
      cases hx : extract z with
      | error e => rw [hx] at h; cases h
      | ok zrows =>
        rw [hx] at h
        dsimp only at h
        by_cases hemp : zrows.isEmpty = true
        · rw [if_pos hemp] at h
          have hcon : contributes extract z = false := by
            simp [contributes, hx, hemp]
          obtain ⟨h1, h2, h3, h4⟩ := ih _ _ _ _ _ h
          refine ⟨?_, ?_, ?_, ?_⟩
          · simpa [List.filter_cons, hnew, hcon] using h1
          · simpa [List.filter_cons, hnew, hcon] using h2
          · simpa [List.filter_cons, hnew, hcon] using h3
          · simp only [List.filter_cons, hnew, if_pos]
            simpa [List.append_assoc] using h4
        · rw [if_neg hemp] at h
          have hcon : contributes extract z = true := by
            simp [contributes, hx]
            simpa using hemp
          obtain ⟨h1, h2, h3, h4⟩ := ih _ _ _ _ _ h
          refine ⟨?_, ?_, ?_, ?_⟩
          · simp only [List.filter_cons, hnew, hcon, Bool.and_self, if_pos,
              List.flatMap_cons]
            simpa [extracted_rows, hx, List.append_assoc] using h1
          · simpa [List.filter_cons, hnew, hcon] using h2
          · simp only [List.filter_cons, hnew, hcon, Bool.and_self, if_pos, List.map_cons]
            simpa [List.append_assoc] using h3
          · simp only [List.filter_cons, hnew, if_pos]
            simpa [List.append_assoc] using h4
    · rw [collect_go, if_neg hnew] at h
      obtain ⟨h1, h2, h3, h4⟩ := ih _ _ _ _ _ h
      have hnew' : is_new wf st ig ld z = false := by
        simpa using hnew
      refine ⟨?_, ?_, ?_, ?_⟩
      · simpa [List.filter_cons, hnew'] using h1
      · simpa [List.filter_cons, hnew'] using h2
      · simpa [List.filter_cons, hnew'] using h3
      · simpa [List.filter_cons, hnew'] using h4

theorem collect_go_error_spec (extract : Extractor) (wf : WorkflowConfig)
    (st : BotState) (ig : Bool) (ld : Option Int) :
    ∀ (zs : List ZipMeta) (z : ZipMeta) (e : String),
      z ∈ zs → is_new wf st ig ld z = true → extract z = .error e →
      ∃ z' e', z' ∈ zs ∧ is_new wf st ig ld z' = true ∧ extract z' = .error e' ∧
        ∀ rows maxd ids dls, collect_go extract wf st ig ld zs rows maxd ids dls = .error e' := by
  intro zs
  induction zs with
  | nil => intro z e hz _ _; cases hz
  | cons w ws ih =>
    intro z e hz hnew herr
    by_cases hw : is_new wf st ig ld w = true
    · cases hxw : extract w with
      | error ew =>
        exact ⟨w, ew, List.mem_cons_self w ws, hw, hxw, by
          intro rows maxd ids dls
          rw [collect_go, if_pos hw, hxw]⟩
      | ok wrows =>
        have hzws : z ∈ ws := by
          rcases List.mem_cons.mp hz with h | h
          · subst h; rw [hxw] at herr; cases herr
          · exact h
        obtain ⟨z', e', hz', hnew', herr', hrun⟩ := ih z e hzws hnew herr
        refine ⟨z', e', List.mem_cons_of_mem w hz', hnew', herr', ?_⟩
        intro rows maxd ids dls
        rw [collect_go, if_pos hw, hxw]
        dsimp only
        by_cases hemp : wrows.isEmpty = true
        · rw [if_pos hemp]; exact hrun _ _ _ _
        · rw [if_neg hemp]; exact hrun _ _ _ _
    · have hzws : z ∈ ws := by
        rcases List.mem_cons.mp hz with h | h
        · subst h; exact absurd hnew hw
        · exact h
      obtain ⟨z', e', hz', hnew', herr', hrun⟩ := ih z e hzws hnew herr
      refine ⟨z', e', List.mem_cons_of_mem w hz', hnew', herr', ?_⟩
      intro rows maxd ids dls
      rw [collect_go, if_neg hw]
      exact hrun _ _ _ _

theorem collect_go_total (extract : Extractor) (wf : WorkflowConfig)
    (st : BotState) (ig : Bool) (ld : Option Int) :
    ∀ (zs : List ZipMeta),
      (∀ z ∈ zs, is_new wf st ig ld z = true → ∃ r, extract z = .ok r) →
      ∀ rows maxd ids dls, ∃ res,
        collect_go extract wf st ig ld zs rows maxd ids dls = .ok res := by
  intro zs
  induction zs with
  | nil => intro _ rows maxd ids dls; exact ⟨⟨rows, ids, maxd, dls⟩, rfl⟩
  | cons w ws ih =>
    intro hok rows maxd ids dls
    have hok' : ∀ z ∈ ws, is_new wf st ig ld z = true → ∃ r, extract z = .ok r :=
      fun z hz => hok z (List.mem_cons_of_mem w hz)
    by_cases hw : is_new wf st ig ld w = true
    · obtain ⟨r, hr⟩ := hok w (List.mem_cons_self w ws) hw
      by_cases hemp : r.isEmpty = true
      · obtain ⟨res, hres⟩ := ih hok' rows maxd ids (dls ++ [w.id])
        exact ⟨res, by rw [collect_go, if_pos hw, hr]; dsimp only; rw [if_pos hemp]; exact hres⟩
      · obtain ⟨res, hres⟩ := ih hok' (rows ++ r.drop 1) (optMax maxd w.modifiedTime)
          (ids ++ [w.id]) (dls ++ [w.id])
        exact ⟨res, by rw [collect_go, if_pos hw, hr]; dsimp only; rw [if_neg hemp]; exact hres⟩
    · obtain ⟨res, hres⟩ := ih hok' rows maxd ids dls
      exact ⟨res, by rw [collect_go, if_neg hw]; exact hres⟩

theorem collect_rows_spec (extract : Extractor) (wf : WorkflowConfig)
    (zips : List ZipMeta) (st : BotState) (ig : Bool) (res : CollectResult)
    (h : collect_rows_from_folder extract wf zips st ig = .ok res) :
    res.rows = (merged_files extract wf st ig zips).flatMap
        (fun z => (extracted_rows extract z).drop 1) ∧
    res.max_dt = (merged_files extract wf st ig zips).foldl
        (fun a z => optMax a z.modifiedTime) (last_dt_of st ig) ∧
    res.zip_ids = (merged_files extract wf st ig zips).map ZipMeta.id ∧
    res.downloads = (new_files wf st ig zips).map ZipMeta.id := by
  simp only [collect_rows_from_folder] at h
  obtain ⟨h1, h2, h3, h4⟩ := collect_go_ok_spec extract wf st ig (last_dt_of st ig)
    zips [] (last_dt_of st ig) [] [] res h
  exact ⟨by simpa [merged_files] using h1, by simpa [merged_files] using h2,
    by simpa [merged_files] using h3, by simpa [new_files] using h4⟩

theorem scan_changes_spec (wf : WorkflowConfig) (p : List String)
    (rs : List ChangeRecord) : ∀ acc : Bool × Bool,
    scan_changes wf p rs acc =
      (acc.1 || rs.any (fun r => (record_flags wf p r).1),
       acc.2 || rs.any (fun r => (record_flags wf p r).2)) := by
  induction rs with
  | nil => intro acc; simp [scan_changes]
  | cons r rs ih =>
    intro acc
    simp only [scan_changes, List.foldl_cons] at *
    rw [ih]
    simp [List.any_cons, Bool.or_assoc]

theorem scan_pages_spec (wf : WorkflowConfig) (p : List String)
    (pgs : List ChangePage) : ∀ acc : Bool × Bool × Option String,
    (scan_pages wf p pgs acc).1 =
      (acc.1 || pgs.any (fun pg => pg.changes.any (fun r => (record_flags wf p r).1))) ∧
    (scan_pages wf p pgs acc).2.1 =
      (acc.2.1 || pgs.any (fun pg => pg.changes.any (fun r => (record_flags wf p r).2))) := by
  induction pgs with
  | nil => intro acc; simp [scan_pages]
  | cons pg pgs ih =>
    intro acc
    simp only [scan_pages, scan_changes_spec]
    rw [(ih _).1, (ih _).2]
    constructor
    · simp [List.any_cons, Bool.or_assoc]
    · simp [List.any_cons, Bool.or_assoc]

/-! ### Claims -/

/-- Claim C2 (code bug): on a state with no stored change cursor, the
bootstrap branch of `handle_drive_changes` does not persist the fresh
start token and return `false`; the `save_state(workflow.state_path,
state, workflow.state_key)` call passes three positional arguments to the
two-parameter `save_state` of `src/app/utils.py`, so the branch raises
`TypeError` instead. -/
theorem claim2_bootstrap_raises_type_error :
    handle_drive_changes_bootstrap "fresh-start-token" initial_state = .raised ∧
    webhook_save_state_arg_count ≠ save_state_param_count := by
  exact ⟨rfl, by decide⟩

/-- Claim C3: a change-feed page reporting a trashed file whose lowercased
name ends in `.zip` and which has no parents (or whose parent is the
watched folder) — even with its id absent from the processed ids — makes
`handle_drive_changes` take the delete path: the managed range is
cleared, the state is reset (processed ids empty, last processed time
null, row count zero), and the handler returns `true` without invoking
the reconciler. -/
theorem claim3_trashed_zip_triggers_delete (extract : Extractor)
    (wf : WorkflowConfig) (zips : List ZipMeta) (freshToken : String)
    (pages : List ChangePage) (st : BotState) (nd : String) (nu : Int)
    (tok : String) (pg : ChangePage) (r : ChangeRecord) (f : ChangeFileMeta)
    (hpt : st.page_token = some tok)
    (hpg : pg ∈ pages) (hr : r ∈ pg.changes) (hf : r.file = some f)
    (htr : f.trashed = true)
    (hname : py_endswith (py_lower f.name) ".zip" = true)
    (hpar : f.parents = [] ∨ wf.drive_parent_folder_id ∈ f.parents)
    (hnotin : ∀ i, change_file_id r = some i → i ∉ st.processed_zip_ids) :
    (handle_drive_changes extract wf zips freshToken pages st nd nu).changed = true ∧
    (handle_drive_changes extract wf zips freshToken pages st nd nu).error = none ∧
    (handle_drive_changes extract wf zips freshToken pages st nd nu).state.processed_zip_ids = [] ∧
    (handle_drive_changes extract wf zips freshToken pages st nd nu).state.last_processed_zip_time = none ∧
    (handle_drive_changes extract wf zips freshToken pages st nd nu).state.last_import_row_count = 0 ∧
    Effect.sheetClear ∈ (handle_drive_changes extract wf zips freshToken pages st nd nu).effects ∧
    Effect.reconcile ∉ (handle_drive_changes extract wf zips freshToken pages st nd nu).effects := by
  have hhit : (record_flags wf st.processed_zip_ids r).2 = true := by
    have hpar' : (f.parents.isEmpty || decide (wf.drive_parent_folder_id ∈ f.parents)) = true := by
      rcases hpar with h | h
      · simp [h]
      · simp [h]
    simp [record_flags, hf, htr, hname, hpar']
  have hdel : (scan_pages wf st.processed_zip_ids pages (false, false, none)).2.1 = true := by
    rw [(scan_pages_spec wf st.processed_zip_ids pages _).2]
    simp only [Bool.false_or]
    rw [List.any_eq_true]
    exact ⟨pg, hpg, by rw [List.any_eq_true]; exact ⟨r, hr, hhit⟩⟩
  simp only [handle_drive_changes, hpt]
  rcases hnst : (scan_pages wf st.processed_zip_ids pages (false, false, none)).2.2 with _ | t
  · simp [hdel, hnst, clear_destination_sheet]
  · simp [hdel, hnst, clear_destination_sheet]

/-- Witness for claim C3 at a concrete trashed `report.zip` change whose
id is not among the processed ids. -/
theorem claim3_witness :
    (handle_drive_changes (fun _ => .ok []) ⟨"folder1", false, false, "", "p", "k"⟩
        [] "ft" [⟨[⟨some "f9", some ⟨"report.zip", [], true⟩⟩], none, some "t2"⟩]
        ⟨["a1"], none, some "t1", 0, none⟩ "nd" 0).changed = true ∧
    (handle_drive_changes (fun _ => .ok []) ⟨"folder1", false, false, "", "p", "k"⟩
        [] "ft" [⟨[⟨some "f9", some ⟨"report.zip", [], true⟩⟩], none, some "t2"⟩]
        ⟨["a1"], none, some "t1", 0, none⟩ "nd" 0).state.processed_zip_ids = [] := by
  have h := claim3_trashed_zip_triggers_delete (fun _ => .ok [])
    ⟨"folder1", false, false, "", "p", "k"⟩ [] "ft"
    [⟨[⟨some "f9", some ⟨"report.zip", [], true⟩⟩], none, some "t2"⟩]
    ⟨["a1"], none, some "t1", 0, none⟩ "nd" 0 "t1"
    ⟨[⟨some "f9", some ⟨"report.zip", [], true⟩⟩], none, some "t2"⟩
    ⟨some "f9", some ⟨"report.zip", [], true⟩⟩ ⟨"report.zip", [], true⟩
    rfl (by simp) (by simp) rfl rfl (by decide) (Or.inl rfl)
    (by intro i hi; cases hi; decide)
  exact ⟨h.1, h.2.2.1⟩

/-- Claim C5: if extraction of any file selected as "new" raises, the
whole `process_folder` pass aborts by propagating an extraction error of
a selected file, with the state untouched and neither a clear, a write,
nor a state save performed. -/
theorem claim5_extraction_error_aborts (extract : Extractor)
    (wf : WorkflowConfig) (zips : List ZipMeta) (st : BotState) (ig : Bool)
    (nd : String) (nu : Int) (z : ZipMeta) (e : String)
    (hz : z ∈ zips) (hnew : is_new wf st ig (last_dt_of st ig) z = true)
    (herr : extract z = .error e) :
    (∃ z' e', z' ∈ zips ∧ is_new wf st ig (last_dt_of st ig) z' = true ∧
      extract z' = .error e' ∧
      (process_folder extract wf zips st ig nd nu).error = some e') ∧
    (process_folder extract wf zips st ig nd nu).state = st ∧
    Effect.sheetClear ∉ (process_folder extract wf zips st ig nd nu).effects ∧
    (∀ vs, Effect.sheetWrite vs ∉ (process_folder extract wf zips st ig nd nu).effects) ∧
    (∀ s, Effect.saveState s ∉ (process_folder extract wf zips st ig nd nu).effects) := by
  obtain ⟨z', e', hz', hnew', herr', hrun⟩ :=
    collect_go_error_spec extract wf st ig (last_dt_of st ig) zips z e hz hnew herr
  have hcol : collect_rows_from_folder extract wf zips st ig = .error e' := by
    simp only [collect_rows_from_folder]
    exact hrun _ _ _ _
  refine ⟨⟨z', e', hz', hnew', herr', ?_⟩, ?_, ?_, ?_, ?_⟩ <;>
    simp [process_folder, hcol]

/-- Witness for claim C5: a single new file whose extraction raises. -/
theorem claim5_witness :
    (process_folder (fun _ => .error "bad zip") ⟨"f", false, false, "", "p", "k"⟩
      [⟨"a", "a.zip", 3⟩] initial_state false "nd" 0).state = initial_state := by
  exact (claim5_extraction_error_aborts (fun _ => .error "bad zip")
    ⟨"f", false, false, "", "p", "k"⟩ [⟨"a", "a.zip", 3⟩] initial_state false
    "nd" 0 ⟨"a", "a.zip", 3⟩ "bad zip" (by simp) (by decide) rfl).2.1

/-- Claim C6: a reconciliation pass never removes processed ids — after
any non-forced `process_folder` run the stored id set is a superset of
its value before (ids are only added through the set union). -/
theorem claim6_processed_ids_monotone (extract : Extractor)
    (wf : WorkflowConfig) (zips : List ZipMeta) (st : BotState)
    (nd : String) (nu : Int) (x : String)
    (hx : x ∈ st.processed_zip_ids) :
    x ∈ (process_folder extract wf zips st false nd nu).state.processed_zip_ids := by
  cases hcol : collect_rows_from_folder extract wf zips st false with
  | error e => simpa [process_folder, hcol] using hx
  | ok res =>
    by_cases hemp : res.rows.isEmpty = true
    · simpa [process_folder, hcol, hemp] using hx
    · simp only [process_folder, hcol, hemp]
      simpa [union_ids, List.mem_dedup] using Or.inl hx

/-- Witness for claim C6 at a concrete committing run. -/
theorem claim6_witness :
    "a1" ∈ (process_folder (fun _ => .ok [["h"], ["d"]])
      ⟨"f", false, false, "", "p", "k"⟩ [⟨"b", "b.zip", 3⟩]
      ⟨["a1"], none, none, 0, none⟩ false "nd" 0).state.processed_zip_ids := by
  exact claim6_processed_ids_monotone (fun _ => .ok [["h"], ["d"]])
    ⟨"f", false, false, "", "p", "k"⟩ [⟨"b", "b.zip", 3⟩]
    ⟨["a1"], none, none, 0, none⟩ "nd" 0 "a1" (by simp)

/-- Claim C10: a file classified "new" whose extraction succeeds with an
empty row list is downloaded but not recorded: its id is absent from the
pass's recorded ids, the recorded maximum ranges only over files that
contributed rows (which exclude it), and its id is still absent from
`processed_zip_ids` after `process_folder` — so, the hypotheses holding
again at the next pass, it is downloaded again on every subsequent pass. -/
theorem claim10_empty_extraction_refetched (extract : Extractor)
    (wf : WorkflowConfig) (zips : List ZipMeta) (st : BotState)
    (nd : String) (nu : Int) (z : ZipMeta)
    (hz : z ∈ zips) (hempty : extract z = .ok [])
    (hnodup : (zips.map ZipMeta.id).Nodup)
    (hnotin : z.id ∉ st.processed_zip_ids) :
    (∀ res, collect_rows_from_folder extract wf zips st false = .ok res →
      z.id ∈ res.downloads ∧ z.id ∉ res.zip_ids ∧
      res.max_dt = (merged_files extract wf st false zips).foldl
        (fun a w => optMax a w.modifiedTime) (last_dt_of st false)) ∧
    z ∉ merged_files extract wf st false zips ∧
    z.id ∉ (process_folder extract wf zips st false nd nu).state.processed_zip_ids := by
  have hdec : decide (z.id ∈ st.processed_zip_ids) = false := decide_eq_false hnotin
  have hnew : is_new wf st false (last_dt_of st false) z = true := by
    simp [is_new, hdec]
  have hcon : contributes extract z = false := by simp [contributes, hempty]
  have hinj := List.inj_on_of_nodup_map hnodup
  have hmerged : z ∉ merged_files extract wf st false zips := by
    intro hmem
    have := List.of_mem_filter hmem
    rw [Bool.and_eq_true] at this
    rw [hcon] at this
    exact Bool.false_ne_true this.2
  have hids : ∀ res, collect_rows_from_folder extract wf zips st false = .ok res →
      z.id ∉ res.zip_ids := by
    intro res hres hzin
    obtain ⟨_, _, h3, _⟩ := collect_rows_spec extract wf zips st false res hres
    rw [h3, List.mem_map] at hzin
    obtain ⟨w, hw, hwid⟩ := hzin
    have hwzips : w ∈ zips := List.mem_of_mem_filter hw
    have : w = z := hinj hwzips hz hwid
    subst this
    exact hmerged hw
  refine ⟨?_, hmerged, ?_⟩
  · intro res hres
    obtain ⟨_, h2, _, h4⟩ := collect_rows_spec extract wf zips st false res hres
    refine ⟨?_, hids res hres, h2⟩
    rw [h4, List.mem_map]
    exact ⟨z, List.mem_filter_of_mem hz hnew, rfl⟩
  · cases hcol : collect_rows_from_folder extract wf zips st false with
    | error e => simpa [process_folder, hcol] using hnotin
    | ok res =>
      by_cases hemp : res.rows.isEmpty = true
      · simpa [process_folder, hcol, hemp] using hnotin
      · simp only [process_folder, hcol, hemp]
        simp only [Bool.false_eq_true, if_false, union_ids, List.mem_dedup,
          List.mem_append]
        rintro (h | h)
        · exact hnotin h
        · exact hids res hcol h

/-- Witness for claim C10: an empty-extraction file next to a committing
one. -/
theorem claim10_witness :
    "a" ∉ (process_folder
      (fun z => if z.id = "a" then .ok [] else .ok [["h"], ["d"]])
      ⟨"f", false, false, "", "p", "k"⟩
      [⟨"a", "a.zip", 9⟩, ⟨"b", "b.zip", 3⟩]
      initial_state false "nd" 0).state.processed_zip_ids := by
  exact (claim10_empty_extraction_refetched
    (fun z => if z.id = "a" then .ok [] else .ok [["h"], ["d"]])
    ⟨"f", false, false, "", "p", "k"⟩
    [⟨"a", "a.zip", 9⟩, ⟨"b", "b.zip", 3⟩]
    initial_state "nd" 0 ⟨"a", "a.zip", 9⟩ (by simp) rfl
    (by decide) (by decide)).2.2

/-! ### Supporting lemmas about the dedupe cache's entry table -/

theorem dget_eq_some_of_mem {es : List (String × ℚ)} {k : String} {v : ℚ}
    (hnd : (es.map Prod.fst).Nodup) (hm : (k, v) ∈ es) : dget es k = some v := by
  induction es with
  | nil => cases hm
  | cons e rest ih =>
    rw [List.map_cons, List.nodup_cons] at hnd
    by_cases he : e.1 = k
    · rcases List.mem_cons.mp hm with h | h
      · rw [dget, if_pos he, ← h]
      · exact absurd (by rw [he]; exact List.mem_map_of_mem Prod.fst h) hnd.1
    · rcases List.mem_cons.mp hm with h | h
      · exact absurd (by rw [← h]) he
      · rw [dget, if_neg he]
        exact ih hnd.2 h

theorem mem_of_dget_eq_some {es : List (String × ℚ)} {k : String} {v : ℚ}
    (h : dget es k = some v) : (k, v) ∈ es := by
  induction es with
  | nil => cases h
  | cons e rest ih =>
    rw [dget] at h
    by_cases he : e.1 = k
    · rw [if_pos he, Option.some.injEq] at h
      have : e = (k, v) := by
        obtain ⟨e1, e2⟩ := e
        simp only at he h
        rw [he, h]
      rw [← this]
      exact List.mem_cons_self e rest
    · rw [if_neg he] at h
      exact List.mem_cons_of_mem e (ih h)

theorem dget_none_of_not_mem_keys {es : List (String × ℚ)} {k : String}
    (h : k ∉ es.map Prod.fst) : dget es k = none := by
  induction es with
  | nil => rfl
  | cons e rest ih =>
    rw [List.map_cons, List.mem_cons] at h
    push_neg at h
    rw [dget, if_neg (fun he => h.1 he.symm)]
    exact ih h.2

theorem dget_some_of_mem {es : List (String × ℚ)} {e : String × ℚ}
    (hes : e ∈ es) : ∃ w, dget es e.1 = some w := by
  induction es with
  | nil => cases hes
  | cons f rest ih =>
    by_cases hf : f.1 = e.1
    · exact ⟨f.2, by rw [dget, if_pos hf]⟩
    · rcases List.mem_cons.mp hes with h | h
      · exact absurd (by rw [h]) hf
      · rw [dget, if_neg hf]
        exact ih h

theorem dget_filter_none {es : List (String × ℚ)} {k : String}
    (p : String × ℚ → Bool) (h : dget es k = none) :
    dget (es.filter p) k = none := by
  apply dget_none_of_not_mem_keys
  intro hk
  rw [List.mem_map] at hk
  obtain ⟨e, he, hek⟩ := hk
  obtain ⟨w, hw⟩ := dget_some_of_mem (List.mem_of_mem_filter he)
  rw [hek, h] at hw
  cases hw

theorem key_unique {es : List (String × ℚ)} {k : String} {v w : ℚ}
    (hnd : (es.map Prod.fst).Nodup) (h1 : (k, v) ∈ es) (h2 : (k, w) ∈ es) :
    v = w := by
  have e1 := dget_eq_some_of_mem hnd h1
  have e2 := dget_eq_some_of_mem hnd h2
  rw [e1] at e2
  exact Option.some_injective _ e2

theorem keys_filter_nodup {es : List (String × ℚ)}
    (hnd : (es.map Prod.fst).Nodup) (p : String × ℚ → Bool) :
    ((es.filter p).map Prod.fst).Nodup :=
  ((es.filter_sublist).map Prod.fst).nodup hnd

theorem dget_filter_of_mem {es : List (String × ℚ)} {k : String} {v : ℚ}
    {p : String × ℚ → Bool} (hnd : (es.map Prod.fst).Nodup)
    (hm : (k, v) ∈ es) (hp : p (k, v) = true) :
    dget (es.filter p) k = some v :=
  dget_eq_some_of_mem (keys_filter_nodup hnd p) (List.mem_filter_of_mem hm hp)

theorem dget_filter_none_of_dropped {es : List (String × ℚ)} {k : String} {v : ℚ}
    {p : String × ℚ → Bool} (hnd : (es.map Prod.fst).Nodup)
    (hm : (k, v) ∈ es) (hp : p (k, v) = false) :
    dget (es.filter p) k = none := by
  apply dget_none_of_not_mem_keys
  intro hk
  rw [List.mem_map] at hk
  obtain ⟨e, he, hek⟩ := hk
  have hes : e ∈ es := List.mem_of_mem_filter he
  have hpe : p e = true := List.of_mem_filter he
  obtain ⟨e1, e2⟩ := e
  simp only at hek
  subst hek
  have hv : e2 = v := key_unique hnd hes hm
  rw [hv, hp] at hpe
  cases hpe

theorem dset_of_dget_none {es : List (String × ℚ)} {k : String} (v : ℚ)
    (h : dget es k = none) : dset es k v = es ++ [(k, v)] := by
  induction es with
  | nil => rfl
  | cons e rest ih =>
    rw [dget] at h
    by_cases he : e.1 = k
    · rw [if_pos he] at h; cases h
    · rw [if_neg he] at h
      rw [dset, if_neg he, ih h, List.cons_append]

theorem mem_dset {es : List (String × ℚ)} {k : String} {v : ℚ}
    {e : String × ℚ} (h : e ∈ dset es k v) : e ∈ es ∨ e = (k, v) := by
  induction es with
  | nil =>
    rw [dset] at h
    rcases List.mem_cons.mp h with h | h
    · exact Or.inr h
    · cases h
  | cons f rest ih =>
    rw [dset] at h
    by_cases hf : f.1 = k
    · rw [if_pos hf] at h
      rcases List.mem_cons.mp h with h | h
      · exact Or.inr h
      · exact Or.inl (List.mem_cons_of_mem f h)
    · rw [if_neg hf] at h
      rcases List.mem_cons.mp h with h | h
      · exact Or.inl (h ▸ List.mem_cons_self f rest)
      · rcases ih h with h | h
        · exact Or.inl (List.mem_cons_of_mem f h)
        · exact Or.inr h

theorem keys_dset_mem {es : List (String × ℚ)} {k : String} {v : ℚ}
    {x : String} (h : x ∈ (dset es k v).map Prod.fst) :
    x ∈ es.map Prod.fst ∨ x = k := by
  rw [List.mem_map] at h
  obtain ⟨e, he, hex⟩ := h
  rcases mem_dset he with h | h
  · exact Or.inl (hex ▸ List.mem_map_of_mem Prod.fst h)
  · exact Or.inr (by rw [← hex, h])

theorem keys_dset_nodup {es : List (String × ℚ)} {k : String} {v : ℚ}
    (hnd : (es.map Prod.fst).Nodup) : ((dset es k v).map Prod.fst).Nodup := by
  induction es with
  | nil => simp [dset]
  | cons e rest ih =>
    rw [List.map_cons, List.nodup_cons] at hnd
    by_cases he : e.1 = k
    · rw [dset, if_pos he, List.map_cons, List.nodup_cons]
      exact ⟨by rw [← he]; exact hnd.1, hnd.2⟩
    · rw [dset, if_neg he, List.map_cons, List.nodup_cons]
      refine ⟨?_, ih hnd.2⟩
      intro hmem
      rcases keys_dset_mem hmem with h | h
      · exact hnd.1 h
      · exact he h

theorem prune_entries (now : ℚ) (ag : Bool) (c : DedupeCache) :
    (prune now ag c).entries = c.entries.filter
      (fun e => !(decide (e.2 < (if ag then now - c.ttl_seconds / 2
        else now - c.ttl_seconds)))) := by
  rw [prune]
  by_cases h : c.entries.isEmpty = true
  · rw [if_pos h]
    rw [List.isEmpty_iff] at h
    rw [h]
    rfl
  · rw [if_neg h]

theorem prune_ttl (now : ℚ) (ag : Bool) (c : DedupeCache) :
    (prune now ag c).ttl_seconds = c.ttl_seconds := by
  rw [prune]; split <;> rfl

theorem prune_max (now : ℚ) (ag : Bool) (c : DedupeCache) :
    (prune now ag c).max_size = c.max_size := by
  rw [prune]; split <;> rfl

theorem seen_eq (c : DedupeCache) (now : ℚ) (k : String) :
    seen c now k =
      if live (prune now false c) now k = true then (true, prune now false c)
      else
        (false,
          if (prune now false c).max_size <
              (dset (prune now false c).entries k now).length then
            prune now true
              ⟨(prune now false c).ttl_seconds, (prune now false c).max_size,
                dset (prune now false c).entries k now⟩
          else
            ⟨(prune now false c).ttl_seconds, (prune now false c).max_size,
              dset (prune now false c).entries k now⟩) := by
  simp only [seen, live]

theorem seen_overflowed_eq (c : DedupeCache) (now : ℚ) (k : String) :
    seen_overflowed c now k =
      (!(live (prune now false c) now k) &&
        decide ((prune now false c).max_size <
          (dset (prune now false c).entries k now).length)) := by
  simp only [seen_overflowed, live]

theorem live_prune_false (c : DedupeCache) (now : ℚ) (k : String)
    (h : live (prune now false c) now k = false) :
    dget (prune now false c).entries k = none := by
  cases hd : dget (prune now false c).entries k with
  | none => rfl
  | some ts =>
    have hmem := mem_of_dget_eq_some hd
    rw [prune_entries] at hmem
    have hpred := List.of_mem_filter hmem
    simp only [Bool.not_eq_true', decide_eq_false_iff_not, not_lt] at hpred
    rw [if_neg (by simp : ¬(false = true))] at hpred
    rw [live, hd, prune_ttl] at h
    rw [decide_eq_false_iff_not] at h
    exact absurd (by linarith : now - ts ≤ c.ttl_seconds) h

theorem seen_live (c : DedupeCache) (now : ℚ) (k : String)
    (h : live (prune now false c) now k = true) :
    seen c now k = (true, prune now false c) := by
  rw [seen_eq, if_pos h]

theorem seen_miss (c : DedupeCache) (now : ℚ) (k : String)
    (h : live (prune now false c) now k = false) :
    seen c now k =
      (false,
        if (prune now false c).max_size <
            (dset (prune now false c).entries k now).length then
          prune now true
            ⟨(prune now false c).ttl_seconds, (prune now false c).max_size,
              dset (prune now false c).entries k now⟩
        else
          ⟨(prune now false c).ttl_seconds, (prune now false c).max_size,
            dset (prune now false c).entries k now⟩) := by
  rw [seen_eq, if_neg (by rw [h]; exact Bool.false_ne_true)]

/-- Claim C7: for a key not live in the cache, `seen` twice with less than
the TTL between the calls returns `false` then `true` and leaves the
stored first-seen timestamp of the key untouched; `seen` twice with more
than the TTL between the calls returns `false` then `false`. -/
theorem claim7_dedupe_seen (c : DedupeCache) (now1 now2 : ℚ) (k : String)
    (hnd : (c.entries.map Prod.fst).Nodup)
    (httl : 0 < c.ttl_seconds)
    (hlive : live c now1 k = false) :
    (seen c now1 k).1 = false ∧
    (now2 - now1 < c.ttl_seconds →
      (seen (seen c now1 k).2 now2 k).1 = true ∧
      dget ((seen (seen c now1 k).2 now2 k).2).entries k = some now1) ∧
    (c.ttl_seconds < now2 - now1 →
      (seen (seen c now1 k).2 now2 k).1 = false) := by
  have hc1get : dget (prune now1 false c).entries k = none := by
    rw [prune_entries]
    cases hget : dget c.entries k with
    | none => exact dget_filter_none _ hget
    | some ts =>
      rw [live, hget] at hlive
      dsimp only at hlive
      have hts : ¬(now1 - ts ≤ c.ttl_seconds) := of_decide_eq_false hlive
      apply dget_filter_none_of_dropped hnd (mem_of_dget_eq_some hget)
      have h1 : ts < now1 - c.ttl_seconds := by linarith [not_le.mp hts]
      simp [h1]
  have hlivep : live (prune now1 false c) now1 k = false := by
    rw [live, hc1get]
  have hseen1 := seen_miss c now1 k hlivep
  have hc1nd : (((prune now1 false c).entries).map Prod.fst).Nodup := by
    rw [prune_entries]
    exact keys_filter_nodup hnd _
  have hdsnd : ((dset (prune now1 false c).entries k now1).map Prod.fst).Nodup :=
    keys_dset_nodup hc1nd
  have hdsmem : (k, now1) ∈ dset (prune now1 false c).entries k now1 := by
    rw [dset_of_dget_none now1 hc1get]
    exact List.mem_append_right _ (List.mem_singleton.mpr rfl)
  have hAttl : (seen c now1 k).2.ttl_seconds = c.ttl_seconds := by
    by_cases hov : (prune now1 false c).max_size <
        (dset (prune now1 false c).entries k now1).length
    · simp only [hseen1, if_pos hov]
      rw [prune_ttl]
      exact prune_ttl now1 false c
    · simp only [hseen1, if_neg hov]
      exact prune_ttl now1 false c
  have hAget : dget (seen c now1 k).2.entries k = some now1 := by
    by_cases hov : (prune now1 false c).max_size <
        (dset (prune now1 false c).entries k now1).length
    · simp only [hseen1, if_pos hov]
      rw [prune_entries]
      apply dget_filter_of_mem hdsnd hdsmem
      have h2 : (0 : ℚ) < c.ttl_seconds / 2 := by linarith
      have h3 : ¬(now1 < now1 - (prune now1 false c).ttl_seconds / 2) := by
        rw [prune_ttl]
        linarith
      simp [h3]
    · simp only [hseen1, if_neg hov]
      exact dget_eq_some_of_mem hdsnd hdsmem
  have hAnd : ((seen c now1 k).2.entries.map Prod.fst).Nodup := by
    by_cases hov : (prune now1 false c).max_size <
        (dset (prune now1 false c).entries k now1).length
    · simp only [hseen1, if_pos hov]
      rw [prune_entries]
      exact keys_filter_nodup hdsnd _
    · simp only [hseen1, if_neg hov]
      exact hdsnd
  have hmem2 : (k, now1) ∈ (seen c now1 k).2.entries := mem_of_dget_eq_some hAget
  refine ⟨by rw [hseen1], ?_, ?_⟩
  · intro hlt
    have hget2 : dget (prune now2 false (seen c now1 k).2).entries k = some now1 := by
      rw [prune_entries]
      apply dget_filter_of_mem hAnd hmem2
      have h1 : ¬(now1 < now2 - (seen c now1 k).2.ttl_seconds) := by
        rw [hAttl]
        linarith
      simp [h1]
    have hlive2 : live (prune now2 false (seen c now1 k).2) now2 k = true := by
      rw [live, hget2]
      dsimp only
      rw [prune_ttl, hAttl]
      exact decide_eq_true (by linarith)
    have hseen2 := seen_live (seen c now1 k).2 now2 k hlive2
    constructor
    · rw [hseen2]
    · rw [hseen2]
      exact hget2
  · intro hgt
    have hget2 : dget (prune now2 false (seen c now1 k).2).entries k = none := by
      rw [prune_entries]
      apply dget_filter_none_of_dropped hAnd hmem2
      have h1 : now1 < now2 - (seen c now1 k).2.ttl_seconds := by
        rw [hAttl]
        linarith
      simp [h1]
    have hlive2 : live (prune now2 false (seen c now1 k).2) now2 k = false := by
      rw [live, hget2]
    rw [seen_miss _ _ _ hlive2]

/-- Witness for claim C7 on an empty cache with TTL 600 and calls 500
seconds apart. -/
theorem claim7_witness :
    (seen ⟨600, 2048, []⟩ 0 "k").1 = false ∧
    (seen (seen ⟨600, 2048, []⟩ 0 "k").2 500 "k").1 = true := by
  have h := claim7_dedupe_seen ⟨600, 2048, []⟩ 0 500 "k" (by simp)
    (by norm_num) (by rw [live, dget])
  exact ⟨h.1, (h.2.1 (by norm_num)).1⟩

theorem prune_eq (now : ℚ) (ag : Bool) (c : DedupeCache) :
    prune now ag c = ⟨c.ttl_seconds, c.max_size,
      c.entries.filter (fun e => !(decide (e.2 < (if ag then now - c.ttl_seconds / 2
        else now - c.ttl_seconds))))⟩ := by
  rw [prune]
  by_cases h : c.entries.isEmpty = true
  · rw [if_pos h]
    rw [List.isEmpty_iff] at h
    cases c
    simp_all
  · rw [if_neg h]

/-- Claim C8 counterexample: with `max_size = 1` and two distinct keys
seen at the same instant, the table holds two entries after the second
call — the stored entry count exceeds the configured maximum size. -/
theorem claim8_counterexample :
    ¬((seen (seen ⟨600, 1, []⟩ 0 "a").2 0 "b").2.entries.length ≤
      (DedupeCache.mk 600 1 []).max_size) := by
  have h1 : (seen ⟨600, 1, []⟩ (0 : ℚ) "a").2 = ⟨600, 1, [("a", 0)]⟩ := rfl
  rw [h1]
  have hkeep : ¬((0 : ℚ) < 0 - 600) := by norm_num
  have hp2 : prune 0 false ⟨600, 1, [("a", (0 : ℚ))]⟩ = ⟨600, 1, [("a", 0)]⟩ := by
    rw [prune_eq]
    simp [hkeep]
  have hlive2 : live (prune 0 false ⟨600, 1, [("a", (0 : ℚ))]⟩) 0 "b" = false := by
    rw [hp2]
    rfl
  rw [seen_miss _ _ _ hlive2]
  rw [hp2]
  have hds : dset [("a", (0 : ℚ))] "b" 0 = [("a", 0), ("b", 0)] := rfl
  simp only [hds]
  rw [if_pos (by norm_num)]
  rw [prune_eq]
  have hkeep2 : ¬((0 : ℚ) < 0 - 600 / 2) := by norm_num
  have hkeep3 : ¬((0 : ℚ) < -(600 / 2)) := by norm_num
  simp [hkeep2, hkeep3]

/-- Claim C8, amended: after every `seen` call no stored entry is older
than `now - ttl`, and when the insertion pushed the table above the size
bound the aggressive pass leaves no entry older than `now - ttl/2`; the
entry count itself is not hard-capped at `max_size` (all entries inside
the half-TTL window survive the aggressive pass). -/
theorem claim8_amended_pruning (c : DedupeCache) (now : ℚ) (k : String)
    (httl : 0 ≤ c.ttl_seconds) :
    (∀ e ∈ ((seen c now k).2).entries, now - c.ttl_seconds ≤ e.2) ∧
    (seen_overflowed c now k = true →
      ∀ e ∈ ((seen c now k).2).entries, now - c.ttl_seconds / 2 ≤ e.2) := by
  have hc1fresh : ∀ e ∈ (prune now false c).entries, now - c.ttl_seconds ≤ e.2 := by
    intro e he
    rw [prune_entries] at he
    have hp := List.of_mem_filter he
    simp only [Bool.not_eq_true', decide_eq_false_iff_not, not_lt] at hp
    simpa using hp
  by_cases hl : live (prune now false c) now k = true
  · rw [seen_live c now k hl]
    refine ⟨hc1fresh, ?_⟩
    intro hov
    rw [seen_overflowed_eq, hl] at hov
    simp at hov
  · have hl' : live (prune now false c) now k = false := by
      rw [Bool.not_eq_true] at hl
      exact hl
    rw [seen_miss c now k hl']
    by_cases hov : (prune now false c).max_size <
        (dset (prune now false c).entries k now).length
    · rw [if_pos hov]
      constructor
      · intro e he
        rw [prune_entries] at he
        have he' := List.mem_of_mem_filter he
        dsimp only at he'
        rcases mem_dset he' with h | h
        · exact hc1fresh e h
        · rw [h]; dsimp only; linarith
      · intro _ e he
        rw [prune_entries] at he
        have hp := List.of_mem_filter he
        simp only [Bool.not_eq_true', decide_eq_false_iff_not, not_lt] at hp
        simp only [if_pos] at hp
        have hX : (⟨(prune now false c).ttl_seconds, (prune now false c).max_size,
            dset (prune now false c).entries k now⟩ : DedupeCache).ttl_seconds =
            c.ttl_seconds := prune_ttl now false c
        rw [hX] at hp
        simpa using hp
    · rw [if_neg hov]
      constructor
      · intro e he
        dsimp only at he
        rcases mem_dset he with h | h
        · exact hc1fresh e h
        · rw [h]; dsimp only; linarith
      · intro hov2
        rw [seen_overflowed_eq, hl'] at hov2
        simp only [Bool.not_false, Bool.true_and, decide_eq_true_eq] at hov2
        exact (hov hov2).elim

/-- Witness for the amended claim C8: the freshness bound evaluated at
the one entry stored by a concrete call on an empty cache. -/
theorem claim8_amended_witness :
    (0 : ℚ) - (DedupeCache.mk 600 2048 []).ttl_seconds ≤ ("k", (0 : ℚ)).2 := by
  have h := claim8_amended_pruning ⟨600, 2048, []⟩ 0 "k" (by norm_num)
  exact h.1 ("k", 0)
    (by
      rw [show (seen ⟨600, 2048, []⟩ 0 "k").2.entries = [("k", (0 : ℚ))] from rfl]
      exact List.mem_singleton.mpr rfl)

/-! ### Publication claims -/

theorem collect_renders_ok (rs : List (Except String Nat))
    (h : ∀ r ∈ rs, ∃ i, r = .ok i) : ∃ imgs, collect_renders rs = .ok imgs := by
  induction rs with
  | nil => exact ⟨[], rfl⟩
  | cons r rest ih =>
    obtain ⟨i, hi⟩ := h r (List.mem_cons_self r rest)
    obtain ⟨imgs, himgs⟩ := ih (fun r hr => h r (List.mem_cons_of_mem _ hr))
    subst hi
    exact ⟨i :: imgs, by rw [collect_renders, himgs]⟩

/-- Claim C9 counterexample: after a committed merge with publication
enabled, a failing render inside the publication step makes the whole
call raise — `process_folder` does not return normally. -/
theorem claim9_counterexample :
    (process_folder (fun _ => .ok [["h"], ["d"]])
      ⟨"f", false, false, "chat-url", "p", "k"⟩ [⟨"b", "b.zip", 3⟩]
      initial_state false "nd" 0).error = none ∧
    Effect.publish ∈ (process_folder (fun _ => .ok [["h"], ["d"]])
      ⟨"f", false, false, "chat-url", "p", "k"⟩ [⟨"b", "b.zip", 3⟩]
      initial_state false "nd" 0).effects ∧
    (process_folder_full (fun _ => .ok [["h"], ["d"]])
      ⟨"f", false, false, "chat-url", "p", "k"⟩ [⟨"b", "b.zip", 3⟩]
      initial_state false "nd" 0 [.error "render failed"] (fun _ => true)
      true).1.error = some "render failed" := by
  refine ⟨by decide, by decide, by decide⟩

/-- Claim C9, amended: when every render succeeds, failures of the
image posts and of the final text post are only logged — the call
returns with the same outcome (same error status and same committed
state) as the underlying reconciliation, for every send result. -/
theorem claim9_amended_publication (extract : Extractor) (wf : WorkflowConfig)
    (zips : List ZipMeta) (st : BotState) (ig : Bool) (nd : String) (nu : Int)
    (renders : List (Except String Nat)) (sendOk : Nat → Bool) (textOk : Bool)
    (hren : ∀ r ∈ renders, ∃ i, r = .ok i) :
    (process_folder_full extract wf zips st ig nd nu renders sendOk textOk).1.error =
      (process_folder extract wf zips st ig nd nu).error ∧
    (process_folder_full extract wf zips st ig nd nu renders sendOk textOk).1.state =
      (process_folder extract wf zips st ig nd nu).state := by
  obtain ⟨imgs, himgs⟩ := collect_renders_ok renders hren
  rw [process_folder_full]
  by_cases hcond : ((process_folder extract wf zips st ig nd nu).error.isNone &&
      decide (Effect.publish ∈ (process_folder extract wf zips st ig nd nu).effects)) = true
  · rw [if_pos hcond]
    rw [send_dashboard_images]
    cases hb : (decide (wf.seatalk_webhook_url ≠ "") : Bool) with
    | false => simp
    | true =>
      rw [himgs]
      simp
  · rw [if_neg hcond]
    exact ⟨rfl, rfl⟩

/-- Witness for the amended claim C9: a committed merge whose image and
text posts all fail still returns normally with its committed state. -/
theorem claim9_amended_witness :
    (process_folder_full (fun _ => .ok [["h"], ["d"]])
      ⟨"f", false, false, "chat-url", "p", "k"⟩ [⟨"b", "b.zip", 3⟩]
      initial_state false "nd" 0 [.ok 1] (fun _ => false) false).1.error = none := by
  have h := claim9_amended_publication (fun _ => .ok [["h"], ["d"]])
    ⟨"f", false, false, "chat-url", "p", "k"⟩ [⟨"b", "b.zip", 3⟩]
    initial_state false "nd" 0 [.ok 1] (fun _ => false) false
    (by
      intro r hr
      rw [List.mem_singleton] at hr
      exact ⟨1, hr⟩)
  rw [h.1]
  decide

/-! ### Threshold-tracking claims -/

/-- Claim C4 counterexample: starting from a stored threshold of 20 with
files `a` (modified 50, empty extraction) and `b` (modified 30, one data
row), both classified "new", the pass commits `last_processed_zip_time =
30` — neither the maximum modified-time among the new files (50) nor the
prior stored value (20). -/
theorem claim4_counterexample :
    ¬((process_folder
        (fun z => if z.modifiedTime = 50 then .ok [] else .ok [["h"], ["r"]])
        ⟨"f", false, false, "", "p", "k"⟩
        [⟨"a", "a.zip", 50⟩, ⟨"b", "b.zip", 30⟩]
        ⟨[], some 20, none, 0, none⟩ false "nd" 0).state.last_processed_zip_time =
      spec_max_modified (new_files ⟨"f", false, false, "", "p", "k"⟩
        ⟨[], some 20, none, 0, none⟩ false
        [⟨"a", "a.zip", 50⟩, ⟨"b", "b.zip", 30⟩]) ∨
      (process_folder
        (fun z => if z.modifiedTime = 50 then .ok [] else .ok [["h"], ["r"]])
        ⟨"f", false, false, "", "p", "k"⟩
        [⟨"a", "a.zip", 50⟩, ⟨"b", "b.zip", 30⟩]
        ⟨[], some 20, none, 0, none⟩ false "nd" 0).state.last_processed_zip_time =
      (BotState.mk [] (some 20) none 0 none).last_processed_zip_time) := by
  decide

/-- Claim C4, amended: after every completed pass, the stored
`last_processed_zip_time` equals the running maximum folded from the
prior threshold over the modified-times of the files actually merged
(classified "new" with nonempty extracted rows); it is unchanged when no
file was merged.  Files classified "new" whose extraction yields no rows
do not advance it. -/
theorem claim4_amended_threshold (extract : Extractor) (wf : WorkflowConfig)
    (zips : List ZipMeta) (st : BotState) (ig : Bool) (nd : String) (nu : Int)
    (hwf : ∀ z r, extract z = .ok r → r = [] ∨ 2 ≤ r.length)
    (hok : (process_folder extract wf zips st ig nd nu).error = none) :
    (process_folder extract wf zips st ig nd nu).state.last_processed_zip_time =
      if merged_files extract wf st ig zips = [] then st.last_processed_zip_time
      else (merged_files extract wf st ig zips).foldl
        (fun a z => optMax a z.modifiedTime) (last_dt_of st ig) := by
  cases hcol : collect_rows_from_folder extract wf zips st ig with
  | error e => simp [process_folder, hcol] at hok
  | ok res =>
    obtain ⟨h1, h2, _, _⟩ := collect_rows_spec extract wf zips st ig res hcol
    have hrows_of_merged : merged_files extract wf st ig zips ≠ [] →
        res.rows ≠ [] := by
      intro hne hrows
      obtain ⟨w, hw⟩ := List.exists_mem_of_ne_nil _ hne
      have hcon : contributes extract w = true := by
        have := List.of_mem_filter hw
        simp only [Bool.and_eq_true] at this
        exact this.2
      rw [contributes] at hcon
      cases hx : extract w with
      | error e => rw [hx] at hcon; cases hcon
      | ok r =>
        rw [hx] at hcon
        have hr2 : 2 ≤ r.length := by
          rcases hwf w r hx with h | h
          · rw [h] at hcon; cases hcon
          · exact h
        have hdrop : (extracted_rows extract w).drop 1 ≠ [] := by
          rw [extracted_rows, hx]
          intro hd
          have hlen : r.length - 1 = 0 := by
            have := congrArg List.length hd
            simpa using this
          omega
        have : (extracted_rows extract w).drop 1 ⊆ res.rows := by
          rw [h1]
          intro a ha
          rw [List.mem_flatMap]
          exact ⟨w, hw, ha⟩
        obtain ⟨a, ha⟩ := List.exists_mem_of_ne_nil _ hdrop
        rw [hrows] at this
        exact (List.not_mem_nil a) (this ha)
    by_cases hm : merged_files extract wf st ig zips = []
    · rw [if_pos hm]
      have hrows : res.rows = [] := by
        rw [h1, hm]
        simp
      have hemp : res.rows.isEmpty = true := by rw [hrows]; rfl
      simp [process_folder, hcol, hemp]
    · rw [if_neg hm]
      have hrows := hrows_of_merged hm
      have hemp : ¬(res.rows.isEmpty = true) := by
        rw [List.isEmpty_iff]
        exact hrows
      obtain ⟨w, hw⟩ := List.exists_mem_of_ne_nil _ hm
      obtain ⟨M, hM, _⟩ := foldl_optMax_mem _ (last_dt_of st ig) w hw
      simp only [process_folder, hcol, hemp, if_false]
      have hmax : res.max_dt = some M := by rw [h2, hM]
      rw [← h2]
      simp [hmax]

/-- Witness for the amended claim C4 at the counterexample's inputs. -/
theorem claim4_amended_witness :
    (process_folder
      (fun z => if z.modifiedTime = 50 then .ok [] else .ok [["h"], ["r"]])
      ⟨"f", false, false, "", "p", "k"⟩
      [⟨"a", "a.zip", 50⟩, ⟨"b", "b.zip", 30⟩]
      ⟨[], some 20, none, 0, none⟩ false "nd" 0).state.last_processed_zip_time =
      if merged_files
          (fun z => if z.modifiedTime = 50 then .ok [] else .ok [["h"], ["r"]])
          ⟨"f", false, false, "", "p", "k"⟩ ⟨[], some 20, none, 0, none⟩ false
          [⟨"a", "a.zip", 50⟩, ⟨"b", "b.zip", 30⟩] = [] then
        (BotState.mk [] (some 20) none 0 none).last_processed_zip_time
      else (merged_files
          (fun z => if z.modifiedTime = 50 then .ok [] else .ok [["h"], ["r"]])
          ⟨"f", false, false, "", "p", "k"⟩ ⟨[], some 20, none, 0, none⟩ false
          [⟨"a", "a.zip", 50⟩, ⟨"b", "b.zip", 30⟩]).foldl
        (fun a z => optMax a z.modifiedTime)
        (last_dt_of ⟨[], some 20, none, 0, none⟩ false) := by
  exact claim4_amended_threshold
    (fun z => if z.modifiedTime = 50 then .ok [] else .ok [["h"], ["r"]])
    ⟨"f", false, false, "", "p", "k"⟩
    [⟨"a", "a.zip", 50⟩, ⟨"b", "b.zip", 30⟩]
    ⟨[], some 20, none, 0, none⟩ false "nd" 0
    (by
      intro z r h
      dsimp only at h
      by_cases hc : z.modifiedTime = 50
      · rw [if_pos hc] at h
        cases h
        exact Or.inl rfl
      · rw [if_neg hc] at h
        cases h
        exact Or.inr (by decide))
    (by decide)

/-! ### Idempotence claims -/

/-- Claim C1 counterexample: with the configured force-overwrite flag at
its default (`FORCE_OVERWRITE` unset defaults to true), a committed first
pass is followed by a second pass over the same listing that collects the
same rows again — the second pass's new-rows list is not empty. -/
theorem claim1_counterexample :
    force_overwrite_default = true ∧
    (process_folder (fun _ => .ok [["h"], ["d"]])
      ⟨"f", force_overwrite_default, false, "", "p", "k"⟩ [⟨"a", "a.zip", 5⟩]
      initial_state false "nd" 0).error = none ∧
    (collect_rows_from_folder (fun _ => .ok [["h"], ["d"]])
      ⟨"f", force_overwrite_default, false, "", "p", "k"⟩ [⟨"a", "a.zip", 5⟩]
      (process_folder (fun _ => .ok [["h"], ["d"]])
        ⟨"f", force_overwrite_default, false, "", "p", "k"⟩ [⟨"a", "a.zip", 5⟩]
        initial_state false "nd" 0).state false).toOption.map CollectResult.rows =
      some [["d"]] ∧
    some [["d"]] ≠ some ([] : List (List String)) := by
  refine ⟨rfl, by decide, by decide, by decide⟩

/-- Claim C1, amended: with the workflow's force-overwrite flag off, for
sequences of candidate files with distinct ids, reconciling twice with
the same inputs and no new files yields zero rows on the second pass:
after a completed `process_folder` run, `collect_rows_from_folder` over
the same listing with `ignore_last_dt = false` returns an empty new-rows
list. -/
theorem claim1_amended_idempotence (extract : Extractor) (wf : WorkflowConfig)
    (zips : List ZipMeta) (st : BotState) (nd : String) (nu : Int)
    (hforce : wf.force_overwrite = false)
    (hdistinct : (zips.map ZipMeta.id).Nodup)
    (hok : (process_folder extract wf zips st false nd nu).error = none) :
    ∃ res2, collect_rows_from_folder extract wf zips
        (process_folder extract wf zips st false nd nu).state false = .ok res2 ∧
      res2.rows = [] := by
  cases hcol : collect_rows_from_folder extract wf zips st false with
  | error e => simp [process_folder, hcol] at hok
  | ok res =>
    obtain ⟨h1, h2, h3, _⟩ := collect_rows_spec extract wf zips st false res hcol
    by_cases hemp : res.rows.isEmpty = true
    · have hst : (process_folder extract wf zips st false nd nu).state = st := by
        simp [process_folder, hcol, hemp]
      rw [hst]
      exact ⟨res, hcol, List.isEmpty_iff.mp hemp⟩
    · have hemp' : res.rows.isEmpty = false := by
        rwa [Bool.not_eq_true] at hemp
      have hstate : (process_folder extract wf zips st false nd nu).state =
          { st with
            processed_zip_ids := union_ids st.processed_zip_ids res.zip_ids
            last_import_row_count := res.rows.length
            last_processed_zip_time :=
              match res.max_dt with
              | none => st.last_processed_zip_time
              | some m => some m
            last_run := some nu } := by
        simp [process_folder, hcol, hemp']
      have hmne : merged_files extract wf st false zips ≠ [] := by
        intro hm
        apply hemp
        rw [List.isEmpty_iff, h1, hm]
        rfl
      obtain ⟨w, hwmem⟩ := List.exists_mem_of_ne_nil _ hmne
      obtain ⟨L, hL, _⟩ := foldl_optMax_mem _ (last_dt_of st false) w hwmem
      have hmax : res.max_dt = some L := by rw [h2, hL]
      have hlast' : (process_folder extract wf zips st false nd nu).state.last_processed_zip_time = some L := by
        rw [hstate]
        simp [hmax]
      have hproc' : (process_folder extract wf zips st false nd nu).state.processed_zip_ids =
          union_ids st.processed_zip_ids res.zip_ids := by
        rw [hstate]
      have hunion : ∀ x, (x ∈ st.processed_zip_ids ∨ x ∈ res.zip_ids) →
          x ∈ (process_folder extract wf zips st false nd nu).state.processed_zip_ids := by
        intro x hx
        rw [hproc', union_ids, List.mem_dedup, List.mem_append]
        exact hx
      have hmerged_le : ∀ z ∈ merged_files extract wf st false zips,
          z.modifiedTime ≤ L := by
        intro z hz
        obtain ⟨M, hM, hle⟩ := foldl_optMax_mem _ (last_dt_of st false) z hz
        rw [hL] at hM
        injection hM with hLM
        rw [hLM]
        exact hle
      have hm0_le : ∀ m0, st.last_processed_zip_time = some m0 → m0 ≤ L := by
        intro m0 hm0
        obtain ⟨M, hM, hle⟩ := foldl_optMax_some (merged_files extract wf st false zips) m0
        have hld : last_dt_of st false = some m0 := by
          rw [last_dt_of, if_neg (by simp : ¬(false = true)), hm0]
        rw [← hld] at hM
        rw [hL] at hM
        injection hM with hLM
        rw [hLM]
        exact hle
      have hnot_new1 : ∀ z, is_new wf st false (last_dt_of st false) z = false →
          z.id ∈ st.processed_zip_ids ∧ z.modifiedTime ≤ L := by
        intro z hz1
        rw [is_new.eq_def, hforce] at hz1
        simp only [Bool.false_or, Bool.or_eq_false_iff] at hz1
        obtain ⟨hmatch, hmem⟩ := hz1
        rw [Bool.not_eq_false'] at hmem
        refine ⟨of_decide_eq_true hmem, ?_⟩
        cases hml : last_dt_of st false with
        | none => rw [hml] at hmatch; cases hmatch
        | some m0 =>
          rw [hml] at hmatch
          have : ¬(m0 < z.modifiedTime) := of_decide_eq_false hmatch
          have hm0 : st.last_processed_zip_time = some m0 := by
            rw [last_dt_of, if_neg (by simp : ¬(false = true))] at hml
            exact hml
          have := hm0_le m0 hm0
          omega
      have hnew2_of : ∀ z,
          z.id ∈ (process_folder extract wf zips st false nd nu).state.processed_zip_ids →
          z.modifiedTime ≤ L →
          is_new wf (process_folder extract wf zips st false nd nu).state false
            (last_dt_of (process_folder extract wf zips st false nd nu).state false) z = false := by
        intro z hmem hle
        rw [is_new.eq_def, hforce]
        have hld2 : last_dt_of (process_folder extract wf zips st false nd nu).state false = some L := by
          rw [last_dt_of, if_neg (by simp : ¬(false = true)), hlast']
        rw [hld2]
        have hd1 : decide (L < z.modifiedTime) = false := decide_eq_false (not_lt.mpr hle)
        have hd2 : decide (z.id ∈ (process_folder extract wf zips st false nd nu).state.processed_zip_ids) = true :=
          decide_eq_true hmem
        simp [hd1, hd2]
      have hall : ∀ z ∈ zips,
          is_new wf (process_folder extract wf zips st false nd nu).state false
            (last_dt_of (process_folder extract wf zips st false nd nu).state false) z = true →
          extract z = .ok [] := by
        intro z hz hn2
        cases hx : extract z with
        | error e =>
          have hnew1 : is_new wf st false (last_dt_of st false) z = false := by
            by_contra hn1
            rw [Bool.not_eq_false] at hn1
            obtain ⟨z', e', _, _, _, hrun⟩ := collect_go_error_spec extract wf st
              false (last_dt_of st false) zips z e hz hn1 hx
            have hbad : collect_rows_from_folder extract wf zips st false = .error e' := by
              simp only [collect_rows_from_folder]
              exact hrun _ _ _ _
            rw [hbad] at hcol
            cases hcol
          obtain ⟨hmem1, hle1⟩ := hnot_new1 z hnew1
          rw [hnew2_of z (hunion z.id (Or.inl hmem1)) hle1] at hn2
          cases hn2
        | ok zr =>
          by_cases hzr : zr = []
          · rw [hzr]
          · by_cases hn1 : is_new wf st false (last_dt_of st false) z = true
            · have hcon : contributes extract z = true := by
                rw [contributes, hx]
                simpa using hzr
              have hzm : z ∈ merged_files extract wf st false zips :=
                List.mem_filter_of_mem hz (by rw [Bool.and_eq_true]; exact ⟨hn1, hcon⟩)
              have hidin : z.id ∈ res.zip_ids := by
                rw [h3, List.mem_map]
                exact ⟨z, hzm, rfl⟩
              rw [hnew2_of z (hunion z.id (Or.inr hidin)) (hmerged_le z hzm)] at hn2
              cases hn2
            · rw [Bool.not_eq_true] at hn1
              obtain ⟨hmem1, hle1⟩ := hnot_new1 z hn1
              rw [hnew2_of z (hunion z.id (Or.inl hmem1)) hle1] at hn2
              cases hn2
      obtain ⟨res2, hres2⟩ := collect_go_total extract wf
        (process_folder extract wf zips st false nd nu).state false
        (last_dt_of (process_folder extract wf zips st false nd nu).state false) zips
        (fun z hz hn => ⟨[], hall z hz hn⟩) []
        (last_dt_of (process_folder extract wf zips st false nd nu).state false) [] []
      have hcol2 : collect_rows_from_folder extract wf zips
          (process_folder extract wf zips st false nd nu).state false = .ok res2 := by
        simp only [collect_rows_from_folder]
        exact hres2
      obtain ⟨g1, _, _, _⟩ := collect_rows_spec extract wf zips
        (process_folder extract wf zips st false nd nu).state false res2 hcol2
      have hm2 : merged_files extract wf
          (process_folder extract wf zips st false nd nu).state false zips = [] := by
        rw [merged_files, List.filter_eq_nil_iff]
        intro z hz hpz
        rw [Bool.and_eq_true] at hpz
        have hz0 := hall z hz hpz.1
        have hc := hpz.2
        rw [contributes, hz0] at hc
        cases hc
      refine ⟨res2, hcol2, ?_⟩
      rw [g1, hm2]
      rfl

/-- Witness for the amended claim C1 at a concrete committing first pass
with the force-overwrite flag off. -/
theorem claim1_amended_witness :
    ∃ res2, collect_rows_from_folder (fun _ => .ok [["h"], ["d"]])
        ⟨"f", false, false, "", "p", "k"⟩ [⟨"b", "b.zip", 3⟩]
        (process_folder (fun _ => .ok [["h"], ["d"]])
          ⟨"f", false, false, "", "p", "k"⟩ [⟨"b", "b.zip", 3⟩]
          initial_state false "nd" 0).state false = .ok res2 ∧
      res2.rows = [] :=
  claim1_amended_idempotence (fun _ => .ok [["h"], ["d"]])
    ⟨"f", false, false, "", "p", "k"⟩ [⟨"b", "b.zip", 3⟩] initial_state "nd" 0
    rfl (by decide) (by decide)

end OutboundBot
